import Mathlib

/-!
Verification of the NDN client runtime (Face core, prefix registration,
segment fetcher, pipelined fetcher) against its natural-language
specification.  The definitions below are a shallow embedding of the
JavaScript sources:

  * `src/js/face.js` (Face core: pending interest table, interest filter
    table, registered prefix table, close, expressInterestHelper,
    removePendingInterest, nfdRegisterPrefix, RegisterResponse.onData),
  * the segment fetcher (SegmentFetcher.onData / fetchNextSegment),
  * `src/examples/browser/test-throughput-ws-pipeline.html`
    (ContentContext.onData / onTimeout, the pipelined fetcher).

Machine integers are modeled as `Nat` (the JavaScript code only uses small
non-negative counters, ids and segment numbers).  Byte buffers are
`List Nat`, names are lists of components, a component being a byte list.
Fallible operations return `Except String` or `Option`.  Callback-driven
code becomes an explicit step function on a state record; timers become an
explicit set of active timer ids, with the JavaScript event-loop guarantee
that a cleared timer never fires expressed by the step function ignoring
fire events for cleared timers.
-/

/-- A name component: a list of bytes (each byte a `Nat` below 256 in
practice; the code never depends on the bound). -/
abbrev NdnComponent := List Nat

/-- An NDN name: an ordered list of components (`Name` in `name.js`). -/
abbrev NdnName := List NdnComponent

/-- Modelled from the spec: `Name.prototype.match` of `name.js` is not under
`src/`; per the spec (section 3, "test equality and prefix-match", and
section 4.3.2 step 7 "if the Interest name is under the reserved prefix")
`a.match(b)` holds when the components of `a` are a prefix of the
components of `b`. -/
def componentsMatch : NdnName → NdnName → Bool
  | [], _ => true
  | _ :: _, [] => false
  | c :: cs, d :: ds => c == d && componentsMatch cs ds

/-- Big-endian interpretation of a byte list as a natural number. -/
def beNat (bytes : List Nat) : Nat :=
  List.foldl (fun acc b => acc * 256 + b) 0 bytes

/-- Modelled from the spec: `Name.Component.toSegment` of `name.js` is not
under `src/`; per the spec (section 3) a segment-number component is
exactly a `0x00` marker byte followed by a big-endian encoding of the
integer.  Decoding any other component fails. -/
def toSegment : NdnComponent → Option Nat
  | 0 :: rest => some (beNat rest)
  | _ => none

/-- Modelled from the spec: `NdnCommon.MAX_NDN_PACKET_SIZE` of
`util/ndn-common.js` is not under `src/`; the spec (sections 4.2 and 6)
fixes the packet ceiling at 8800 bytes. -/
def maxNdnPacketSize : Nat := 8800

/-- `Face.getMaxNdnPacketSize` of `face.js` (returns
`NdnCommon.MAX_NDN_PACKET_SIZE`). -/
def getMaxNdnPacketSize : Nat := maxNdnPacketSize

/-- An Interest as the Face code observes it: its name, its wire encoding
(the TLV codec is out of scope per the spec, so `interest.wireEncode()` is
carried as a field), and its lifetime in milliseconds (`undefined`
modeled as `none`). -/
structure NdnInterest where
  name : NdnName
  encoding : List Nat
  lifetimeMilliseconds : Option Nat
  deriving DecidableEq, Repr

/-- `this.timeoutPrefix = new Name("/local/timeout")` from the Face
constructor: the two components hold the ASCII bytes of "local" and
"timeout". -/
def timeoutPrefixName : NdnName :=
  [[108, 111, 99, 97, 108], [116, 105, 109, 101, 111, 117, 116]]

/-- Modelled from the spec: `Interest.prototype.matchesName` of
`interest.js` is not under `src/`; per the spec (section 4.3.3) matching
is a name prefix match (selector constraints are out of scope and not
carried by our `NdnInterest`). -/
def matchesName (interest : NdnInterest) (name : NdnName) : Bool :=
  componentsMatch interest.name name

/-- `Face.PendingInterest` of `face.js`: the entry id, the interest and a
timer handle.  The onData/onTimeout callbacks are identified by the entry
id in the trace semantics below, and the timer handle lives in the trace
state, so neither is a field here. -/
structure PendingInterest where
  pendingInterestId : Nat
  interest : NdnInterest
  deriving DecidableEq, Repr

/-- `Face.RegisteredPrefix` of `face.js`. -/
structure RegisteredPrefixEntry where
  registeredPrefixId : Nat
  prefixName : NdnName
  relatedInterestFilterId : Nat
  deriving DecidableEq, Repr

/-- `Face.InterestFilterEntry` of `face.js`; the filter here is the prefix
name (the optional regex filter is never used by the claims) and the
onInterest callback is identified by the entry id. -/
structure InterestFilterEntry where
  interestFilterId : Nat
  filterPrefixName : NdnName
  deriving DecidableEq, Repr

/-- `Face.UNOPEN` -/
def faceUNOPEN : Nat := 0
/-- `Face.OPEN_REQUESTED` -/
def faceOPEN_REQUESTED : Nat := 1
/-- `Face.OPENED` -/
def faceOPENED : Nat := 2
/-- `Face.CLOSED` -/
def faceCLOSED : Nat := 3

/-- The mutable state of a `Face` from `face.js`: the ready status and the
five tables set up in the constructor, plus the entry id counter. -/
structure FaceState where
  readyStatus : Nat
  pendingInterestTable : List PendingInterest
  pitRemoveRequests : List Nat
  registeredPrefixTable : List RegisteredPrefixEntry
  registeredPrefixRemoveRequests : List Nat
  interestFilterTable : List InterestFilterEntry
  lastEntryId : Nat
  deriving DecidableEq, Repr

/-- A freshly constructed Face: `readyStatus = Face.UNOPEN`, all tables
empty, `lastEntryId = 0`. -/
def initialFace : FaceState :=
  { readyStatus := faceUNOPEN
    pendingInterestTable := []
    pitRemoveRequests := []
    registeredPrefixTable := []
    registeredPrefixRemoveRequests := []
    interestFilterTable := []
    lastEntryId := 0 }

/-- `Face.prototype.close` of `face.js`: if `readyStatus != Face.OPENED`
return (no state change, transport untouched); otherwise set
`readyStatus = Face.CLOSED` and call `transport.close()`.  The returned
`Bool` records whether `transport.close()` was called. -/
def closeFace (s : FaceState) : FaceState × Bool :=
  if s.readyStatus ≠ faceOPENED then (s, false)
  else ({ s with readyStatus := faceCLOSED }, true)

/-- `Face.prototype.closeByTransport` of `face.js`: called by the transport
on close; unconditionally sets `readyStatus = Face.CLOSED` (and invokes the
onclose handler, not modeled). -/
def closeByTransport (s : FaceState) : FaceState :=
  { s with readyStatus := faceCLOSED }

/-- The effects of `Face.prototype.expressInterestHelper`: the updated
state, the timer scheduled by `setTimeout` (entry id and timeout in
milliseconds, `none` when no timer was set), and the packets passed to
`transport.send`. -/
structure ExpressResult where
  state : FaceState
  timer : Option (Nat × Nat)
  sent : List (List Nat)
  deriving DecidableEq, Repr

/-- `Face.prototype.expressInterestHelper` of `face.js`.  The encoded
interest is `interest.encoding`; if its size exceeds
`Face.getMaxNdnPacketSize()` the code throws.  Otherwise, when the
`pendingInterestId` is in `pitRemoveRequests` the marker is erased and no
PIT entry or timer is created; else the PIT entry is pushed and a one-shot
timer is set for `interest.getInterestLifetimeMilliseconds() || 4000`
milliseconds (JavaScript `||` treats 0 as absent).  In both cases the
encoding is then sent via the transport unless
`this.timeoutPrefix.match(interest.getName())`. -/
def expressInterestHelper (s : FaceState) (pendingInterestId : Nat)
    (interest : NdnInterest) : Except String ExpressResult :=
  if interest.encoding.length > getMaxNdnPacketSize then
    .error "The encoded interest size exceeds the maximum limit getMaxNdnPacketSize()"
  else
    let inner :=
      if s.pitRemoveRequests.contains pendingInterestId then
        ({ s with pitRemoveRequests := s.pitRemoveRequests.erase pendingInterestId },
         (none : Option (Nat × Nat)))
      else
        let pitEntry : PendingInterest := ⟨pendingInterestId, interest⟩
        let timeoutMilliseconds :=
          match interest.lifetimeMilliseconds with
          | some l => if l = 0 then 4000 else l
          | none => 4000
        ({ s with pendingInterestTable := s.pendingInterestTable ++ [pitEntry] },
         some (pendingInterestId, timeoutMilliseconds))
    let sent :=
      if componentsMatch timeoutPrefixName interest.name then []
      else [interest.encoding]
    .ok ⟨inner.1, inner.2, sent⟩

/-- `Face.prototype.removePendingInterest` of `face.js`: walk the table
backwards removing every entry whose id matches (cancelling its timer);
if none matched, record the id in `pitRemoveRequests` unless already
present. -/
def removePendingInterest (s : FaceState) (pendingInterestId : Nat) : FaceState :=
  let count :=
    (s.pendingInterestTable.filter
      (fun e => e.pendingInterestId == pendingInterestId)).length
  let table :=
    s.pendingInterestTable.filter (fun e => e.pendingInterestId != pendingInterestId)
  let removeRequests :=
    if count = 0 then
      if s.pitRemoveRequests.contains pendingInterestId then s.pitRemoveRequests
      else s.pitRemoveRequests ++ [pendingInterestId]
    else s.pitRemoveRequests
  { s with pendingInterestTable := table, pitRemoveRequests := removeRequests }

/-- `Face.prototype.extractEntriesForExpressedInterest` of `face.js`: walk
the table backwards; every entry whose interest matches the name is
removed (its timer cancelled) and pushed onto the result, so the result
lists matching entries in reverse table order. -/
def extractEntriesForExpressedInterest (s : FaceState) (name : NdnName) :
    List PendingInterest × FaceState :=
  ((s.pendingInterestTable.filter (fun e => matchesName e.interest name)).reverse,
   { s with pendingInterestTable :=
       s.pendingInterestTable.filter (fun e => ! matchesName e.interest name) })

/-- `Face.prototype.setInterestFilter` of `face.js`: allocate the next
entry id and push an `InterestFilterEntry`; returns the new state and the
`interestFilterId`. -/
def setInterestFilter (s : FaceState) (filterPrefixName : NdnName) :
    FaceState × Nat :=
  let interestFilterId := s.lastEntryId + 1
  ({ s with
      lastEntryId := interestFilterId
      interestFilterTable :=
        s.interestFilterTable ++ [⟨interestFilterId, filterPrefixName⟩] },
   interestFilterId)

/-- `Face.prototype.unsetInterestFilter` of `face.js`: remove every entry
with the given id. -/
def unsetInterestFilter (s : FaceState) (interestFilterId : Nat) : FaceState :=
  { s with interestFilterTable :=
      s.interestFilterTable.filter (fun e => e.interestFilterId != interestFilterId) }

/-- The name `/localhost/nfd/rib/register` (ASCII components), from
`nfdRegisterPrefix` in `face.js`. -/
def localhostRibRegister : NdnName :=
  [[108, 111, 99, 97, 108, 104, 111, 115, 116], [110, 102, 100],
   [114, 105, 98], [114, 101, 103, 105, 115, 116, 101, 114]]

/-- The name `/localhop/nfd/rib/register` (ASCII components), from
`nfdRegisterPrefix` in `face.js`. -/
def localhopRibRegister : NdnName :=
  [[108, 111, 99, 97, 108, 104, 111, 112], [110, 102, 100],
   [114, 105, 98], [114, 101, 103, 105, 115, 116, 101, 114]]

/-- Modelled from the spec: `ControlParameters.wireEncode` (TLV codec,
out of scope per the spec section 1) is represented by an opaque but
computable stand-in for the encoded component appended to the command
name; the claims never inspect these bytes. -/
def controlParametersComponent (prefixOfRoute : NdnName) : NdnComponent :=
  prefixOfRoute.flatten

/-- `Face.prototype.nfdRegisterPrefix` of `face.js`, with the asynchronous
isLocal and keychain-signing callbacks run to completion (the spec section
5 single-threaded cooperative model).  Checks the pending-removal set
first; then the keychain and certificate name; then builds the command
name (local or remote form), and in the signing completion callback - for
a nonzero `registeredPrefixId` - installs the interest filter (when an
onInterest callback was supplied) and pushes the registered-prefix entry,
all BEFORE the command interest is expressed.  Returns the new state and
the command interest name and lifetime that were sent
(`none` when nothing was sent). -/
def nfdRegisterPrefixStep (s : FaceState) (registeredPrefixId : Nat)
    (prefixToRegister : NdnName) (hasOnInterest : Bool) (keyChainSet : Bool)
    (certificateNameSize : Nat) (isLocal : Bool) :
    Except String (FaceState × Option (NdnName × Nat)) :=
  if s.registeredPrefixRemoveRequests.contains registeredPrefixId then
    .ok ({ s with registeredPrefixRemoveRequests :=
             s.registeredPrefixRemoveRequests.erase registeredPrefixId }, none)
  else if keyChainSet = false then
    .error "registerPrefix: The command KeyChain has not been set."
  else if certificateNameSize = 0 then
    .error "registerPrefix: The command certificate name has not been set."
  else
    let base := if isLocal then localhostRibRegister else localhopRibRegister
    let lifetime := if isLocal then 2000 else 4000
    let commandName := base ++ [controlParametersComponent prefixToRegister]
    let afterSign :=
      if registeredPrefixId ≠ 0 then
        let withFilter :=
          if hasOnInterest then setInterestFilter s prefixToRegister else (s, 0)
        { withFilter.1 with registeredPrefixTable :=
            withFilter.1.registeredPrefixTable ++
              [⟨registeredPrefixId, prefixToRegister, withFilter.2⟩] }
      else s
    .ok (afterSign, some (commandName, lifetime))

/-- `Face.RegisterResponse.prototype.onData` of `face.js`: decode a
ControlResponse from the response content and read its StatusCode (the
TLV decode, out of scope, is represented by the already-decoded
`statusCode`, `none` meaning the decode threw).  On decode failure or a
status code other than 200 call onRegisterFailed; on 200 just log.  The
returned `Bool` records whether onRegisterFailed was invoked; the face
state is returned unchanged because this handler never touches any
table. -/
def registerResponseOnData (s : FaceState) (statusCode : Option Nat) :
    FaceState × Bool :=
  match statusCode with
  | none => (s, true)
  | some code => if code ≠ 200 then (s, true) else (s, false)

/-- `Face.prototype.registerPrefix` of `face.js` with the connection
already open: allocate the next entry id and run `nfdRegisterPrefix`.
Returns the state, the returned `registeredPrefixId`, and the sent
command interest name and lifetime. -/
def registerPrefixStep (s : FaceState) (prefixToRegister : NdnName)
    (hasOnInterest : Bool) (keyChainSet : Bool) (certificateNameSize : Nat)
    (isLocal : Bool) :
    Except String (FaceState × Nat × Option (NdnName × Nat)) :=
  let registeredPrefixId := s.lastEntryId + 1
  match nfdRegisterPrefixStep { s with lastEntryId := registeredPrefixId }
      registeredPrefixId prefixToRegister hasOnInterest keyChainSet
      certificateNameSize isLocal with
  | .error e => .error e
  | .ok (s2, sent) => .ok (s2, registeredPrefixId, sent)

/-- A callback invocation observable by the application, identified by the
pending interest id it belongs to. -/
inductive CallbackCall where
  | onData (id : Nat)
  | onTimeout (id : Nat)
  deriving DecidableEq, Repr

/-- The events that can reach a Face after a PIT entry exists, per the
spec section 5 single-threaded cooperative model: a complete Data element
arrives (`Face.prototype.onReceivedElement`, Data branch), a pending
interest lifetime timer fires (the `timeoutCallback` closure of
`expressInterestHelper`), or the application calls
`removePendingInterest`. -/
inductive FaceEvent where
  | receiveData (name : NdnName)
  | timerFire (id : Nat)
  | removePending (id : Nat)
  deriving DecidableEq, Repr

/-- A Face together with its environment: the ids of scheduled, not yet
cancelled, not yet fired lifetime timers, and the log of application
callbacks invoked so far. -/
structure TraceState where
  face : FaceState
  activeTimers : List Nat
  callLog : List CallbackCall
  deriving DecidableEq, Repr

/-- One event step for the Face, straight from `face.js`:

  * `receiveData name` - `onReceivedElement` calls
    `extractEntriesForExpressedInterest` which removes every matching
    entry and calls `clearTimeout` on its timer, then invokes `onData`
    for each extracted entry.
  * `timerFire id` - the `timeoutCallback` closure runs only if its timer
    was neither cancelled (`clearTimeout`) nor already fired (one-shot):
    both are expressed by `id` having to be in `activeTimers`.  It removes
    the entry from the table and invokes `onTimeout`.
  * `removePending id` - `removePendingInterest`, cancelling the timer via
    `clearTimeout` for each removed entry. -/
def faceTraceStep (t : TraceState) (e : FaceEvent) : TraceState :=
  match e with
  | .receiveData name =>
      let extracted := (extractEntriesForExpressedInterest t.face name).1
      { face := (extractEntriesForExpressedInterest t.face name).2
        activeTimers := t.activeTimers.filter
          (fun timerId => ! extracted.any (fun en => en.pendingInterestId == timerId))
        callLog := t.callLog ++
          extracted.map (fun en => CallbackCall.onData en.pendingInterestId) }
  | .timerFire id =>
      if t.activeTimers.contains id then
        let table := t.face.pendingInterestTable.filter
          (fun en => en.pendingInterestId != id)
        { face := { t.face with pendingInterestTable := table }
          activeTimers := t.activeTimers.erase id
          callLog := t.callLog ++ [CallbackCall.onTimeout id] }
      else t
  | .removePending id =>
      let hadEntry := t.face.pendingInterestTable.any
        (fun en => en.pendingInterestId == id)
      { face := removePendingInterest t.face id
        activeTimers :=
          if hadEntry then t.activeTimers.filter (fun timerId => timerId != id)
          else t.activeTimers
        callLog := t.callLog }

/-- Run a list of Face events. -/
def runFaceTrace (t : TraceState) (events : List FaceEvent) : TraceState :=
  events.foldl faceTraceStep t

/-- Number of `onData` invocations for the given pending interest id. -/
def dataCallCount (id : Nat) (log : List CallbackCall) : Nat :=
  log.count (CallbackCall.onData id)

/-- Number of `onTimeout` invocations for the given pending interest id. -/
def timeoutCallCount (id : Nat) (log : List CallbackCall) : Nat :=
  log.count (CallbackCall.onTimeout id)

/-- Number of PIT entries carrying the given pending interest id. -/
def pitCount (id : Nat) (table : List PendingInterest) : Nat :=
  table.countP (fun en => en.pendingInterestId == id)

/-- `this.ooo_table_size = 128` from the `ContentContext` constructor in
`test-throughput-ws-pipeline.html`. -/
def oooTableSize : Nat := 128

/-- The per-object state of the pipelined fetcher, the `ContentContext`
constructor of `test-throughput-ws-pipeline.html`.  The JavaScript
`ooo_table` is a sparse array read modulo `ooo_table_size`; it is modeled
as a 128-slot list of `Option Nat` (`undefined` = `none`). -/
structure ContentContext where
  totalBlocks : Nat
  ooo_count : Nat
  pkt_recved : Nat
  timed_out : Nat
  interest_sent : Nat
  dups : Nat
  max_window : Nat
  max_retrans : Nat
  snd_una : Nat
  snd_wnd : Nat
  snd_nxt : Nat
  ooo_table : List (Option Nat)
  terminated : Bool
  deriving DecidableEq, Repr

/-- The initial `ContentContext`: counters zero except
`interest_sent = 1` (one initial interest is in flight), `max_window = 32`,
`max_retrans = 5`, `snd_una = 0`, `snd_wnd = 1`, `snd_nxt = 1`, empty
out-of-order table, not terminated. -/
def initContentContext : ContentContext :=
  { totalBlocks := 0
    ooo_count := 0
    pkt_recved := 0
    timed_out := 0
    interest_sent := 1
    dups := 0
    max_window := 32
    max_retrans := 5
    snd_una := 0
    snd_wnd := 1
    snd_nxt := 1
    ooo_table := List.replicate oooTableSize none
    terminated := false }

/-- The `while (this.ooo_table[slot] != undefined)` loop of
`ContentContext.prototype.onData`: keep clearing the slot of the current
`snd_una` and advancing `snd_una` and `totalBlocks` until an unmarked slot
is reached.  Structural recursion on a fuel that the caller sets to the
number of marked slots plus one; each iteration clears one marked slot and
marks none, so the fuel never runs out. -/
def absorbInOrder : Nat → List (Option Nat) → Nat → Nat →
    List (Option Nat) × Nat × Nat
  | 0, table, snd_una, totalBlocks => (table, snd_una, totalBlocks)
  | fuel + 1, table, snd_una, totalBlocks =>
    let slot := snd_una % oooTableSize
    match table.getD slot none with
    | some _ =>
        absorbInOrder fuel (table.set slot none) (snd_una + 1) (totalBlocks + 1)
    | none => (table, snd_una, totalBlocks)

/-- The `while (this.snd_nxt - this.snd_una < this.snd_wnd)` loop of
`ContentContext.prototype.onData`: express an interest for segment
`snd_nxt` (counted in `interest_sent`) and advance `snd_nxt`, while the
flight is below the window.  Returns the final `snd_nxt` and
`interest_sent`.  Structural recursion on a fuel that the caller sets to
`snd_una + snd_wnd`, which always bounds the number of iterations (the
loop stops once `snd_nxt` reaches `snd_una + snd_wnd`), so the fuel never
runs out. -/
def sendLoopPipe (fuel snd_una snd_wnd snd_nxt interest_sent : Nat) :
    Nat × Nat :=
  match fuel with
  | 0 => (snd_nxt, interest_sent)
  | fuel + 1 =>
    if snd_nxt - snd_una < snd_wnd then
      sendLoopPipe fuel snd_una snd_wnd (snd_nxt + 1) (interest_sent + 1)
    else (snd_nxt, interest_sent)

/-- `ContentContext.prototype.onTimeout` of
`test-throughput-ws-pipeline.html`: count the packet; when not terminated,
count the timeout, collapse the window to 1 and retransmit the timed-out
segment (counted in `interest_sent`). -/
def contentOnTimeout (c : ContentContext) : ContentContext :=
  let c1 := { c with pkt_recved := c.pkt_recved + 1 }
  if c1.terminated = false then
    { c1 with
        timed_out := c1.timed_out + 1
        snd_wnd := 1
        interest_sent := c1.interest_sent + 1 }
  else c1

/-- `ContentContext.prototype.onData` of
`test-throughput-ws-pipeline.html`.  The segment number and the optional
FinalBlockId segment number arrive already decoded (`toSegment` of the
name is out of scope here; the harness always names segments correctly),
and `data.getContent().isNull()` is the `contentIsNull` flag.  Stages,
exactly as in the source: count the packet; return if the content is
null; if the segment is not `snd_una`, count it out-of-order, drop it
when outside `[snd_una, snd_nxt)`, otherwise mark its slot (the
`ooo_count == 3` fast-retransmit branch changes no state: the window
adjustment is commented out in the source); if the segment is `snd_una`,
advance and absorb contiguously marked slots, terminate when the final
segment has been passed, otherwise grow the window additively below
`max_window` and issue new interests up to the window. -/
def contentOnData (c : ContentContext) (contentIsNull : Bool)
    (segmentNumber : Nat) (finalSegmentNumber : Option Nat) : ContentContext :=
  let c1 := { c with pkt_recved := c.pkt_recved + 1 }
  if contentIsNull then c1
  else if segmentNumber ≠ c1.snd_una then
    let c2 := { c1 with ooo_count := c1.ooo_count + 1 }
    if segmentNumber ≥ c2.snd_nxt ∨ segmentNumber < c2.snd_una then c2
    else
      let slot := segmentNumber % oooTableSize
      { c2 with ooo_table := c2.ooo_table.set slot (some segmentNumber) }
  else
    let fuel := c1.ooo_table.countP (fun o => o.isSome) + 1
    let absorbed := absorbInOrder fuel c1.ooo_table (c1.snd_una + 1)
      (c1.totalBlocks + 1)
    let c2 := { c1 with
      ooo_table := absorbed.1
      snd_una := absorbed.2.1
      totalBlocks := absorbed.2.2 }
    let isFinal :=
      match finalSegmentNumber with
      | some f => c2.snd_una == f + 1
      | none => false
    if isFinal then { c2 with terminated := true }
    else
      let c3 :=
        if c2.snd_wnd < c2.max_window then { c2 with snd_wnd := c2.snd_wnd + 1 }
        else c2
      let afterSend := sendLoopPipe (c3.snd_una + c3.snd_wnd) c3.snd_una
        c3.snd_wnd c3.snd_nxt c3.interest_sent
      { c3 with snd_nxt := afterSend.1, interest_sent := afterSend.2 }

/-- An event reaching the pipelined fetcher: a Data arrival (with its
already-decoded segment number, optional FinalBlockId segment number and
content-null flag) or an interest timeout. -/
inductive PipeEvent where
  | data (contentIsNull : Bool) (segmentNumber : Nat)
      (finalSegmentNumber : Option Nat)
  | timeout
  deriving DecidableEq, Repr

/-- One pipelined-fetcher event step. -/
def pipeStep (c : ContentContext) (e : PipeEvent) : ContentContext :=
  match e with
  | .data contentIsNull segmentNumber finalSegmentNumber =>
      contentOnData c contentIsNull segmentNumber finalSegmentNumber
  | .timeout => contentOnTimeout c

/-- Run the pipelined fetcher from the initial context over a list of
events. -/
def runPipe (events : List PipeEvent) : ContentContext :=
  events.foldl pipeStep initContentContext

/-- The pipelined-fetcher state invariant that actually holds at every
reachable state: the window stays in `[1, max_window]` with
`max_window = 32`, and while the fetch has not terminated the next
segment pointer stays strictly ahead of the unacked pointer. -/
def pipeInv (c : ContentContext) : Prop :=
  1 ≤ c.snd_wnd ∧ c.snd_wnd ≤ c.max_window ∧ c.max_window = 32 ∧
  (c.terminated = false → c.snd_una < c.snd_nxt)

/-- `SegmentFetcher.endsWithSegmentNumber` of the segment fetcher source:
the name has at least one component, the last component has at least one
byte, and its first byte is 0. -/
def endsWithSegmentNumber (name : NdnName) : Bool :=
  decide (name.length ≥ 1) &&
  decide ((name.getLastD []).length ≥ 1) &&
  (name.getLastD []).headD 1 == 0

/-- A Data packet as `SegmentFetcher.prototype.onData` observes it:
its name, its content bytes, the bytes of `MetaInfo.FinalBlockId`
(`[]` when absent, matching `getValue().size() > 0`), and the result of
the user-supplied `verifySegment` callback on it. -/
structure SFPacket where
  name : NdnName
  content : List Nat
  finalBlockIdValue : List Nat
  verified : Bool
  deriving DecidableEq, Repr

/-- The last name component of a packet decoded as a segment number
(`data.getName().get(-1).toSegment()`). -/
def segOf (p : SFPacket) : Option Nat := toSegment (p.name.getLastD [])

/-- Outcome of one `SegmentFetcher.prototype.onData` call: abort via
onError, finish via onComplete with the concatenated blob, or continue
with the updated `contentParts` after requesting `requestedSegment`
(`fetchNextSegment`). -/
inductive SFStep where
  | fetchError
  | complete (blob : List Nat)
  | toNext (contentParts : List (List Nat)) (requestedSegment : Nat)
  deriving DecidableEq, Repr

/-- `SegmentFetcher.prototype.onData` of the segment fetcher source.
Stages, exactly as in the source: abort when `verifySegment` rejects;
abort when the name does not end with a segment number, or the segment
number fails to decode; when the received segment differs from
`expectedSegmentNumber = contentParts.length`, request the expected
segment again and discard the received content; otherwise append the
content, and when a FinalBlockId is present (aborting if it fails to
decode) and equals the current segment, concatenate everything for
onComplete; otherwise request the next segment. -/
def sfOnData (contentParts : List (List Nat)) (p : SFPacket) : SFStep :=
  if p.verified = false then .fetchError
  else if endsWithSegmentNumber p.name = false then .fetchError
  else
    match toSegment (p.name.getLastD []) with
    | none => .fetchError
    | some currentSegment =>
      let expectedSegmentNumber := contentParts.length
      if currentSegment ≠ expectedSegmentNumber then
        .toNext contentParts expectedSegmentNumber
      else
        let newParts := contentParts ++ [p.content]
        if p.finalBlockIdValue.length > 0 then
          match toSegment p.finalBlockIdValue with
          | none => .fetchError
          | some finalSegmentNumber =>
            if currentSegment = finalSegmentNumber then .complete newParts.flatten
            else .toNext newParts (expectedSegmentNumber + 1)
        else .toNext newParts (expectedSegmentNumber + 1)

/-- Run the segment fetcher over the incoming Data packets, starting from
the given `contentParts`; `some blob` exactly when the run ends by calling
onComplete with `blob`. -/
def sfRun (contentParts : List (List Nat)) : List SFPacket → Option (List Nat)
  | [] => none
  | p :: ps =>
    match sfOnData contentParts p with
    | .fetchError => none
    | .complete blob => some blob
    | .toNext newParts _ => sfRun newParts ps

/-- A one-component name interest with a tiny encoding, for concrete
instantiations. -/
def smallInterestDemo : NdnInterest := ⟨[[97]], [5, 6, 7], none⟩

/-- A Face holding a single PIT entry with id 1. -/
def oneEntryFaceDemo : FaceState :=
  { initialFace with
      pendingInterestTable := [⟨1, smallInterestDemo⟩]
      lastEntryId := 1 }

/-- A Face whose pending-removal set already holds id 1 (the state after
`removePendingInterest(1)` raced ahead of the deferred send). -/
def pendingRemovalFaceDemo : FaceState :=
  { initialFace with pitRemoveRequests := [1], lastEntryId := 1 }

/-- An interest under the reserved `/local/timeout` name. -/
def timeoutInterestDemo : NdnInterest :=
  ⟨[[108, 111, 99, 97, 108], [116, 105, 109, 101, 111, 117, 116], [120]],
   [9], some 100⟩

/-- An interest whose encoding is 8801 bytes (one over the ceiling). -/
def bigInterestDemo : NdnInterest := ⟨[[97]], List.replicate 8801 0, none⟩

/-- An interest whose encoding is exactly 8800 bytes (at the ceiling). -/
def edgeInterestDemo : NdnInterest := ⟨[[97]], List.replicate 8800 0, none⟩

/-- The starting state of the spec reorder scenario: `snd_una = 0`,
`snd_nxt = 5`, `snd_wnd = 5`. -/
def reorderStartDemo : ContentContext :=
  { initContentContext with snd_nxt := 5, snd_wnd := 5 }

/-- The reorder scenario after the out-of-order arrivals of segments
1, 2, 3 and 4 (each marked in `ooo_table`, each counted in
`ooo_count`). -/
def reorderMarkedDemo : ContentContext :=
  List.foldl pipeStep reorderStartDemo
    [PipeEvent.data false 1 none, PipeEvent.data false 2 none,
     PipeEvent.data false 3 none, PipeEvent.data false 4 none]

/-- A segment packet of the spec segment-fetch scenario:
name `/x/<version 1>/<seg>`, given content and FinalBlockId bytes. -/
def sfPacketDemo (seg : Nat) (content : List Nat) (finalBytes : List Nat) :
    SFPacket :=
  ⟨[[120], [0, 1], [0, seg]], content, finalBytes, true⟩

/-- The three Data packets of the spec segment-fetch scenario 3. -/
def sfScenarioDemo : List SFPacket :=
  [sfPacketDemo 0 [1] [0, 2], sfPacketDemo 1 [2] [], sfPacketDemo 2 [3] [0, 2]]

/-- The result of `expressInterestHelper initialFace 1 smallInterestDemo`:
the PIT entry is pushed, a 4000 ms default-lifetime timer is set, and the
encoding is sent. -/
def expressResultDemo : ExpressResult :=
  ⟨{ initialFace with pendingInterestTable := [⟨1, smallInterestDemo⟩] },
   some (1, 4000), [[5, 6, 7]]⟩

/-- The pending interest id `i` has no live trace presence: no PIT entry
carries it and no active timer is scheduled for it. -/
def entryAbsent (i : Nat) (t : TraceState) : Prop :=
  pitCount i t.face.pendingInterestTable = 0 ∧ i ∉ t.activeTimers

/-- Trace invariant for one pending interest id `i`: at most one PIT entry
carries it; at most one active timer is scheduled for it; an active timer
implies the entry is still in the table; while the entry is in the table no
callback has fired for it; and at most one callback has fired for it in
total. -/
def entryInv (i : Nat) (t : TraceState) : Prop :=
  pitCount i t.face.pendingInterestTable ≤ 1 ∧
  t.activeTimers.count i ≤ 1 ∧
  (i ∈ t.activeTimers → pitCount i t.face.pendingInterestTable = 1) ∧
  (1 ≤ pitCount i t.face.pendingInterestTable →
    dataCallCount i t.callLog + timeoutCallCount i t.callLog = 0) ∧
  dataCallCount i t.callLog + timeoutCallCount i t.callLog ≤ 1

/-- CLAIM C9, counterexample.  The claim says `close()` moves the Face to
CLOSED from any state; on a fresh Face (state UNOPEN) `close` returns
without changing `readyStatus`, because `Face.prototype.close` starts with
`if (this.readyStatus != Face.OPENED) return;`. -/
theorem close_from_unopen_not_closed_cx :
    ¬ ((closeFace initialFace).1.readyStatus = faceCLOSED) := by decide

/-- CLAIM C9, amended.  `close()` transitions to CLOSED and closes the
transport only from the OPENED state; from UNOPEN, OPEN_REQUESTED or
CLOSED it is a no-op that does not touch the transport.  The
unconditional transition to CLOSED happens only in `closeByTransport`
(the transport onClose handler). -/
theorem close_only_from_opened (s : FaceState) :
    (s.readyStatus = faceOPENED →
      closeFace s = ({ s with readyStatus := faceCLOSED }, true)) ∧
    (s.readyStatus ≠ faceOPENED → closeFace s = (s, false)) ∧
    (closeByTransport s).readyStatus = faceCLOSED := by
  refine ⟨fun h => ?_, fun h => ?_, rfl⟩
  · simp [closeFace, h]
  · simp [closeFace, h]

/-- CLAIM C9, witness for `close_only_from_opened`. -/
theorem close_only_from_opened_witness :
    closeFace { initialFace with readyStatus := faceOPENED } =
      ({ { initialFace with readyStatus := faceOPENED } with
          readyStatus := faceCLOSED }, true) ∧
    closeFace initialFace = (initialFace, false) :=
  ⟨(close_only_from_opened { initialFace with readyStatus := faceOPENED }).1 rfl,
   (close_only_from_opened initialFace).2.1 (by decide)⟩

/-- CLAIM C10, counterexample.  The claim says `removePendingInterest(i)`
twice equals once for every id, whether or not an entry exists.  On a Face
holding a PIT entry with id 1, the first call removes the entry; the
second call finds nothing and therefore records 1 in the pending-removal
set (`pitRemoveRequests`), so the two states differ. -/
theorem removePendingInterest_twice_not_idempotent_cx :
    removePendingInterest (removePendingInterest oneEntryFaceDemo 1) 1 ≠
      removePendingInterest oneEntryFaceDemo 1 := by decide

/-- CLAIM C10, amended.  `removePendingInterest(i)` twice equals once
when no PIT entry with id `i` exists at the first call (the first call
then records the pending-removal marker and the second call sees it
already recorded); when an entry does exist, the second call additionally
records `i` in the pending-removal set. -/
theorem removePendingInterest_twice_when_absent (s : FaceState) (i : Nat)
    (h : pitCount i s.pendingInterestTable = 0) :
    removePendingInterest (removePendingInterest s i) i =
      removePendingInterest s i := by
  have hall : ∀ a ∈ s.pendingInterestTable, ¬ (a.pendingInterestId == i) = true :=
    List.countP_eq_zero.mp h
  have hcount : (s.pendingInterestTable.filter
      (fun e => e.pendingInterestId == i)).length = 0 := by
    rw [← List.countP_eq_length_filter]
    exact h
  have htab : s.pendingInterestTable.filter
      (fun e => e.pendingInterestId != i) = s.pendingInterestTable := by
    refine List.filter_eq_self.mpr (fun a ha => ?_)
    simpa using hall a ha
  by_cases hc : i ∈ s.pitRemoveRequests
  · simp [removePendingInterest, hcount, htab, hc]
  · simp [removePendingInterest, hcount, htab, hc]

/-- CLAIM C10, witness for `removePendingInterest_twice_when_absent`. -/
theorem removePendingInterest_twice_when_absent_witness :
    removePendingInterest (removePendingInterest initialFace 1) 1 =
      removePendingInterest initialFace 1 :=
  removePendingInterest_twice_when_absent initialFace 1 (by decide)

/-- CLAIM C7.  An interest whose wire encoding exceeds
`getMaxNdnPacketSize() = 8800` bytes makes `expressInterestHelper` throw
(so no PIT entry, no timer and no send exist: the error return carries no
effects); an interest whose encoding is exactly 8800 bytes passes the size
check and, when its name is not under the reserved `/local/timeout`, its
encoding is handed to `transport.send`. -/
theorem oversize_interest_rejected_boundary (s : FaceState) (id : Nat)
    (interest : NdnInterest) :
    (interest.encoding.length > getMaxNdnPacketSize →
      expressInterestHelper s id interest =
        .error "The encoded interest size exceeds the maximum limit getMaxNdnPacketSize()") ∧
    (interest.encoding.length = getMaxNdnPacketSize →
      componentsMatch timeoutPrefixName interest.name = false →
      ∃ r, expressInterestHelper s id interest = Except.ok r ∧
        r.sent = [interest.encoding]) := by
  constructor
  · intro h
    simp [expressInterestHelper, h]
  · intro h hm
    have hle : ¬ (interest.encoding.length > getMaxNdnPacketSize) := by omega
    simp only [expressInterestHelper, if_neg hle, hm]
    exact ⟨_, rfl, by simp⟩

/-- CLAIM C7, witness for `oversize_interest_rejected_boundary`: the
8801-byte encoding is rejected, the 8800-byte encoding is sent. -/
theorem oversize_interest_rejected_boundary_witness :
    expressInterestHelper initialFace 1 bigInterestDemo =
      .error "The encoded interest size exceeds the maximum limit getMaxNdnPacketSize()" ∧
    ∃ r, expressInterestHelper initialFace 1 edgeInterestDemo = Except.ok r ∧
      r.sent = [edgeInterestDemo.encoding] :=
  ⟨(oversize_interest_rejected_boundary initialFace 1 bigInterestDemo).1
      (by
        have henc : bigInterestDemo.encoding = List.replicate 8801 0 := rfl
        rw [henc, List.length_replicate]
        decide),
   (oversize_interest_rejected_boundary initialFace 1 edgeInterestDemo).2
      (by
        have henc : edgeInterestDemo.encoding = List.replicate 8800 0 := rfl
        rw [henc, List.length_replicate]
        decide)
      (by decide)⟩

/-- Counting `onData i` in the calls generated for a list of extracted
entries counts the entries carrying id `i`. -/
theorem count_onData_map (i : Nat) (l : List PendingInterest) :
    List.count (CallbackCall.onData i)
      (l.map (fun en => CallbackCall.onData en.pendingInterestId)) =
      pitCount i l := by
  induction l with
  | nil => rfl
  | cons a l ih =>
    by_cases h : a.pendingInterestId = i
    · simp only [List.map_cons, List.count_cons, pitCount, List.countP_cons] at *
      simp [h, ih]
    · simp only [List.map_cons, List.count_cons, pitCount, List.countP_cons] at *
      simp [h, ih]

/-- The calls generated for extracted entries contain no `onTimeout`. -/
theorem count_onTimeout_map (i : Nat) (l : List PendingInterest) :
    List.count (CallbackCall.onTimeout i)
      (l.map (fun en => CallbackCall.onData en.pendingInterestId)) = 0 := by
  induction l with
  | nil => rfl
  | cons a l ih => simp [List.count_cons, ih]

/-- Splitting a count over a boolean side condition. -/
theorem countP_split {α : Type} (p q : α → Bool) (l : List α) :
    l.countP (fun a => p a && q a) + l.countP (fun a => p a && !q a) =
      l.countP p := by
  induction l with
  | nil => rfl
  | cons a l ih =>
    by_cases hp : p a <;> by_cases hq : q a <;>
      simp [List.countP_cons, hp, hq] <;> omega

/-- The per-id trace invariant is preserved by every single event. -/
theorem entryInv_step (i : Nat) (t : TraceState) (e : FaceEvent)
    (h : entryInv i t) : entryInv i (faceTraceStep t e) := by
  obtain ⟨h1, h2, h3, h4, h5⟩ := h
  cases e with
  | receiveData name =>
    simp only [faceTraceStep, extractEntriesForExpressedInterest]
    have e1 : pitCount i (List.filter
        (fun e => !matchesName e.interest name) t.face.pendingInterestTable) =
        List.countP (fun e => (e.pendingInterestId == i) &&
          !matchesName e.interest name) t.face.pendingInterestTable := by
      rw [pitCount, List.countP_filter]
    have e2 : pitCount i ((List.filter
        (fun e => matchesName e.interest name) t.face.pendingInterestTable).reverse) =
        List.countP (fun e => (e.pendingInterestId == i) &&
          matchesName e.interest name) t.face.pendingInterestTable := by
      rw [pitCount, List.countP_reverse, List.countP_filter]
    have e3 := countP_split (fun e => e.pendingInterestId == i)
      (fun e => matchesName e.interest name) t.face.pendingInterestTable
    have e4 : ∀ log : List CallbackCall, dataCallCount i (log ++
        List.map (fun en => CallbackCall.onData en.pendingInterestId)
          ((List.filter (fun e => matchesName e.interest name)
            t.face.pendingInterestTable).reverse)) =
        dataCallCount i log +
          List.countP (fun e => (e.pendingInterestId == i) &&
            matchesName e.interest name) t.face.pendingInterestTable := by
      intro log
      rw [dataCallCount, dataCallCount, List.count_append, count_onData_map, e2]
    have e5 : ∀ log : List CallbackCall, timeoutCallCount i (log ++
        List.map (fun en => CallbackCall.onData en.pendingInterestId)
          ((List.filter (fun e => matchesName e.interest name)
            t.face.pendingInterestTable).reverse)) = timeoutCallCount i log := by
      intro log
      rw [timeoutCallCount, timeoutCallCount, List.count_append,
        count_onTimeout_map]
      omega
    refine ⟨?_, ?_, ?_, ?_, ?_⟩
    · dsimp only
      rw [e1]
      unfold pitCount at h1
      omega
    · dsimp only
      exact le_trans ((List.filter_sublist t.activeTimers).count_le i) h2
    · dsimp only
      intro hi
      rw [List.mem_filter] at hi
      obtain ⟨hiT, hcond⟩ := hi
      rw [Bool.not_eq_true'] at hcond
      have cnt0 : pitCount i ((List.filter
          (fun e => matchesName e.interest name)
          t.face.pendingInterestTable).reverse) = 0 := by
        apply List.countP_eq_zero.mpr
        intro a ha
        exact List.any_eq_false.mp hcond a ha
      rw [e2] at cnt0
      have h3x := h3 hiT
      unfold pitCount at h3x
      rw [e1]
      omega
    · dsimp only
      intro hge
      rw [e1] at hge
      rw [e4, e5]
      unfold pitCount at h1 h4
      by_cases hp : 1 ≤ List.countP
          (fun e => e.pendingInterestId == i) t.face.pendingInterestTable
      · have h4x := h4 hp
        omega
      · omega
    · dsimp only
      rw [e4, e5]
      unfold pitCount at h1 h4
      by_cases hp : 1 ≤ List.countP
          (fun e => e.pendingInterestId == i) t.face.pendingInterestTable
      · have h4x := h4 hp
        omega
      · omega
  | timerFire id =>
    simp only [faceTraceStep]
    by_cases hmem : id ∈ t.activeTimers
    · have hmc : t.activeTimers.contains id = true := by simpa using hmem
      rw [if_pos hmc]
      by_cases hii : id = i
      · subst hii
        have hpit1 : pitCount id t.face.pendingInterestTable = 1 := h3 hmem
        have hcalls0 : dataCallCount id t.callLog +
            timeoutCallCount id t.callLog = 0 := h4 (by omega)
        have hz : pitCount id (t.face.pendingInterestTable.filter
            (fun en => en.pendingInterestId != id)) = 0 := by
          unfold pitCount
          rw [List.countP_filter]
          apply List.countP_eq_zero.mpr
          intro a _
          simp
        have hcnt : (t.activeTimers.erase id).count id =
            t.activeTimers.count id - 1 := List.count_erase_self id t.activeTimers
        have hpos : 0 < t.activeTimers.count id := List.count_pos_iff.mpr hmem
        refine ⟨?_, ?_, ?_, ?_, ?_⟩
        · dsimp only
          omega
        · dsimp only
          omega
        · dsimp only
          intro hi
          exact absurd (List.count_pos_iff.mpr hi) (by omega)
        · dsimp only
          intro hge
          rw [hz] at hge
          omega
        · dsimp only
          rw [dataCallCount, timeoutCallCount, List.count_append,
            List.count_append]
          have hd0 : List.count (CallbackCall.onData id)
              [CallbackCall.onTimeout id] = 0 := by simp
          have ht1 : List.count (CallbackCall.onTimeout id)
              [CallbackCall.onTimeout id] = 1 := by simp
          rw [hd0, ht1]
          rw [dataCallCount, timeoutCallCount] at hcalls0
          omega
      · have hii2 : i ≠ id := fun hh => hii hh.symm
        have hpit : pitCount i (t.face.pendingInterestTable.filter
            (fun en => en.pendingInterestId != id)) =
            pitCount i t.face.pendingInterestTable := by
          unfold pitCount
          rw [List.countP_filter]
          apply List.countP_congr
          intro a _
          by_cases ha : a.pendingInterestId = i
          · simp [ha, hii2]
          · simp [ha]
        have hd0 : List.count (CallbackCall.onData i)
            [CallbackCall.onTimeout id] = 0 := by simp
        have ht0 : List.count (CallbackCall.onTimeout i)
            [CallbackCall.onTimeout id] = 0 := by
          rw [List.count_singleton']
          simp [hii2.symm]
        refine ⟨?_, ?_, ?_, ?_, ?_⟩
        · dsimp only
          omega
        · dsimp only
          exact le_trans ((t.activeTimers.erase_sublist id).count_le i) h2
        · dsimp only
          intro hi
          rw [hpit]
          exact h3 (List.mem_of_mem_erase hi)
        · dsimp only
          intro hge
          rw [hpit] at hge
          rw [dataCallCount, timeoutCallCount, List.count_append,
            List.count_append, hd0, ht0]
          have := h4 hge
          rw [dataCallCount, timeoutCallCount] at this
          omega
        · dsimp only
          rw [dataCallCount, timeoutCallCount, List.count_append,
            List.count_append, hd0, ht0]
          rw [dataCallCount, timeoutCallCount] at h5
          omega
    · have hmc : t.activeTimers.contains id = false := by simpa using hmem
      rw [hmc]
      simp only [Bool.false_eq_true, if_false]
      exact ⟨h1, h2, h3, h4, h5⟩
  | removePending id =>
    simp only [faceTraceStep, removePendingInterest]
    by_cases hii : id = i
    · subst hii
      have hz : pitCount id (t.face.pendingInterestTable.filter
          (fun en => en.pendingInterestId != id)) = 0 := by
        unfold pitCount
        rw [List.countP_filter]
        apply List.countP_eq_zero.mpr
        intro a _
        simp
      by_cases hHad : (t.face.pendingInterestTable.any
          (fun en => en.pendingInterestId == id)) = true
      · refine ⟨?_, ?_, ?_, ?_, ?_⟩
        · dsimp only
          omega
        · dsimp only
          rw [if_pos hHad]
          exact le_trans ((List.filter_sublist t.activeTimers).count_le id) h2
        · dsimp only
          rw [if_pos hHad]
          intro hi
          rw [List.mem_filter] at hi
          simp at hi
        · dsimp only
          intro hge
          rw [hz] at hge
          omega
        · dsimp only
          exact h5
      · refine ⟨?_, ?_, ?_, ?_, ?_⟩
        · dsimp only
          omega
        · dsimp only
          rw [if_neg hHad]
          exact h2
        · dsimp only
          rw [if_neg hHad]
          intro hi
          exfalso
          have hpit1 := h3 hi
          unfold pitCount at hpit1
          have hex : ∃ a ∈ t.face.pendingInterestTable,
              (a.pendingInterestId == id) = true := by
            have := List.countP_pos_iff.mp (by omega :
              0 < List.countP (fun en => en.pendingInterestId == id)
                t.face.pendingInterestTable)
            exact this
          exact hHad (List.any_eq_true.mpr hex)
        · dsimp only
          intro hge
          rw [hz] at hge
          omega
        · dsimp only
          exact h5
    · have hii2 : i ≠ id := fun hh => hii hh.symm
      have hpit : pitCount i (t.face.pendingInterestTable.filter
          (fun en => en.pendingInterestId != id)) =
          pitCount i t.face.pendingInterestTable := by
        unfold pitCount
        rw [List.countP_filter]
        apply List.countP_congr
        intro a _
        by_cases ha : a.pendingInterestId = i
        · simp [ha, hii2]
        · simp [ha]
      have htmr : ∀ b : Bool, List.count i (if (t.face.pendingInterestTable.any
          (fun en => en.pendingInterestId == id)) = b then
            t.activeTimers.filter (fun timerId => timerId != id)
          else t.activeTimers) ≤ List.count i t.activeTimers := by
        intro b
        split
        · exact (List.filter_sublist t.activeTimers).count_le i
        · exact le_refl _
      refine ⟨?_, ?_, ?_, ?_, ?_⟩
      · dsimp only
        omega
      · dsimp only
        exact le_trans (htmr true) h2
      · dsimp only
        intro hi
        rw [hpit]
        apply h3
        revert hi
        split
        · intro hi
          exact (List.mem_filter.mp hi).1
        · intro hi
          exact hi
      · dsimp only
        intro hge
        rw [hpit] at hge
        exact h4 hge
      · dsimp only
        exact h5

/-- The per-id trace invariant is preserved by any event sequence. -/
theorem entryInv_run (i : Nat) (t : TraceState) (events : List FaceEvent)
    (h : entryInv i t) : entryInv i (runFaceTrace t events) := by
  induction events generalizing t with
  | nil => exact h
  | cons e es ih => exact ih (faceTraceStep t e) (entryInv_step i t e h)

/-- An id with no PIT entry and no active timer stays absent through any
event, and no callback for it is ever invoked. -/
theorem entryAbsent_step (i : Nat) (t : TraceState) (e : FaceEvent)
    (h : entryAbsent i t) :
    entryAbsent i (faceTraceStep t e) ∧
    dataCallCount i (faceTraceStep t e).callLog = dataCallCount i t.callLog ∧
    timeoutCallCount i (faceTraceStep t e).callLog =
      timeoutCallCount i t.callLog := by
  obtain ⟨hz, hnt⟩ := h
  cases e with
  | receiveData name =>
    simp only [faceTraceStep, extractEntriesForExpressedInterest]
    have hrev : pitCount i ((List.filter
        (fun e => matchesName e.interest name)
        t.face.pendingInterestTable).reverse) = 0 := by
      unfold pitCount at hz ⊢
      rw [List.countP_reverse]
      have := (List.filter_sublist (p := fun e => matchesName e.interest name)
        t.face.pendingInterestTable).countP_le
        (fun en => en.pendingInterestId == i)
      omega
    have hnew : pitCount i (List.filter
        (fun e => !matchesName e.interest name)
        t.face.pendingInterestTable) = 0 := by
      unfold pitCount at hz ⊢
      have := (List.filter_sublist (p := fun e => !matchesName e.interest name)
        t.face.pendingInterestTable).countP_le
        (fun en => en.pendingInterestId == i)
      omega
    refine ⟨⟨hnew, ?_⟩, ?_, ?_⟩
    · intro hi
      exact hnt (List.mem_filter.mp hi).1
    · dsimp only
      rw [dataCallCount, dataCallCount, List.count_append, count_onData_map,
        hrev]
      omega
    · dsimp only
      rw [timeoutCallCount, timeoutCallCount, List.count_append,
        count_onTimeout_map]
      omega
  | timerFire id =>
    simp only [faceTraceStep]
    by_cases hmem : id ∈ t.activeTimers
    · have hmc : t.activeTimers.contains id = true := by simpa using hmem
      rw [if_pos hmc]
      have hii : id ≠ i := fun hh => hnt (hh ▸ hmem)
      have hnew : pitCount i (t.face.pendingInterestTable.filter
          (fun en => en.pendingInterestId != id)) = 0 := by
        unfold pitCount at hz ⊢
        have := (List.filter_sublist
          (p := fun en => en.pendingInterestId != id)
          t.face.pendingInterestTable).countP_le
          (fun en => en.pendingInterestId == i)
        omega
      have ht0 : List.count (CallbackCall.onTimeout i)
          [CallbackCall.onTimeout id] = 0 := by
        rw [List.count_singleton']
        simp [hii]
      refine ⟨⟨hnew, ?_⟩, ?_, ?_⟩
      · intro hi
        exact hnt (List.mem_of_mem_erase hi)
      · dsimp only
        rw [dataCallCount, dataCallCount, List.count_append]
        simp
      · dsimp only
        rw [timeoutCallCount, timeoutCallCount, List.count_append, ht0]
        omega
    · have hmc : t.activeTimers.contains id = false := by simpa using hmem
      rw [hmc]
      simp only [Bool.false_eq_true, if_false]
      exact ⟨⟨hz, hnt⟩, trivial, trivial⟩
  | removePending id =>
    simp only [faceTraceStep, removePendingInterest]
    have hnew : pitCount i (t.face.pendingInterestTable.filter
        (fun en => en.pendingInterestId != id)) = 0 := by
      unfold pitCount at hz ⊢
      have := (List.filter_sublist
        (p := fun en => en.pendingInterestId != id)
        t.face.pendingInterestTable).countP_le
        (fun en => en.pendingInterestId == i)
      omega
    refine ⟨⟨hnew, ?_⟩, ?_, ?_⟩
    · dsimp only
      intro hi
      revert hi
      split
      · intro hi
        exact hnt (List.mem_filter.mp hi).1
      · intro hi
        exact hnt hi
    · trivial
    · trivial

/-- `entryAbsent_step` iterated over an event sequence. -/
theorem entryAbsent_run (i : Nat) (t : TraceState) (events : List FaceEvent)
    (h : entryAbsent i t) :
    entryAbsent i (runFaceTrace t events) ∧
    dataCallCount i (runFaceTrace t events).callLog =
      dataCallCount i t.callLog ∧
    timeoutCallCount i (runFaceTrace t events).callLog =
      timeoutCallCount i t.callLog := by
  induction events generalizing t with
  | nil => exact ⟨h, rfl, rfl⟩
  | cons e es ih =>
    obtain ⟨h1, h2, h3⟩ := entryAbsent_step i t e h
    obtain ⟨g1, g2, g3⟩ := ih (faceTraceStep t e) h1
    exact ⟨g1, g2.trans h2, g3.trans h3⟩

/-- When the id is not in the pending-removal set and the encoding fits,
`expressInterestHelper` pushes the PIT entry, starts the lifetime timer
(defaulting to 4000 ms) and sends unless the name is under
`/local/timeout`. -/
theorem expressInterestHelper_marker_absent (s : FaceState) (id : Nat)
    (interest : NdnInterest)
    (hsz : ¬ interest.encoding.length > getMaxNdnPacketSize)
    (hmarker : id ∉ s.pitRemoveRequests) :
    expressInterestHelper s id interest = Except.ok
      ⟨{ s with pendingInterestTable :=
          s.pendingInterestTable ++ [⟨id, interest⟩] },
       some (id, match interest.lifetimeMilliseconds with
         | some l => if l = 0 then 4000 else l
         | none => 4000),
       if componentsMatch timeoutPrefixName interest.name then []
       else [interest.encoding]⟩ := by
  have hc : s.pitRemoveRequests.contains id = false := by simpa using hmarker
  simp only [expressInterestHelper, hc, Bool.false_eq_true, if_false,
    if_neg hsz]

/-- When the id is already in the pending-removal set and the encoding
fits, `expressInterestHelper` erases the marker, pushes no PIT entry,
starts no timer, and still sends unless the name is under
`/local/timeout`. -/
theorem expressInterestHelper_marker_present (s : FaceState) (id : Nat)
    (interest : NdnInterest)
    (hsz : ¬ interest.encoding.length > getMaxNdnPacketSize)
    (hmarker : id ∈ s.pitRemoveRequests) :
    expressInterestHelper s id interest = Except.ok
      ⟨{ s with pitRemoveRequests := s.pitRemoveRequests.erase id }, none,
       if componentsMatch timeoutPrefixName interest.name then []
       else [interest.encoding]⟩ := by
  have hc : s.pitRemoveRequests.contains id = true := by simpa using hmarker
  simp only [expressInterestHelper, hc, if_true, if_neg hsz]

/-- CLAIM C2.  For a PIT entry created by `expressInterestHelper` (fresh
id, no pending-removal marker), over every subsequent event sequence -
Data arrivals, timer fires, explicit removals - the onData callback and
the onTimeout callback of that entry are each invoked at most once and
never both: matching Data removes the entry and cancels its timer, and a
fired timer removes the entry. -/
theorem pit_entry_at_most_one_callback (s : FaceState) (id : Nat)
    (interest : NdnInterest) (r : ExpressResult) (events : List FaceEvent)
    (hok : expressInterestHelper s id interest = Except.ok r)
    (hfresh : pitCount id s.pendingInterestTable = 0)
    (hmarker : id ∉ s.pitRemoveRequests) :
    dataCallCount id (runFaceTrace ⟨r.state, [id], []⟩ events).callLog ≤ 1 ∧
    timeoutCallCount id (runFaceTrace ⟨r.state, [id], []⟩ events).callLog ≤ 1 ∧
    ¬ (1 ≤ dataCallCount id (runFaceTrace ⟨r.state, [id], []⟩ events).callLog ∧
       1 ≤ timeoutCallCount id
         (runFaceTrace ⟨r.state, [id], []⟩ events).callLog) := by
  by_cases hsz : interest.encoding.length > getMaxNdnPacketSize
  · rw [expressInterestHelper, if_pos hsz] at hok
    simp at hok
  · rw [expressInterestHelper_marker_absent s id interest hsz hmarker] at hok
    injection hok with hr
    have hstate : r.state = { s with pendingInterestTable :=
        s.pendingInterestTable ++ [⟨id, interest⟩] } := by
      rw [← hr]
    rw [hstate]
    have hinv0 : entryInv id ⟨{ s with pendingInterestTable :=
        s.pendingInterestTable ++ [⟨id, interest⟩] }, [id], []⟩ := by
      have hpit : pitCount id
          (s.pendingInterestTable ++ [(⟨id, interest⟩ : PendingInterest)]) =
          1 := by
        unfold pitCount at hfresh ⊢
        rw [List.countP_append]
        simp [hfresh]
      refine ⟨?_, ?_, ?_, ?_, ?_⟩
      · dsimp only
        omega
      · simp
      · intro _
        exact hpit
      · intro _
        rfl
      · simp [dataCallCount, timeoutCallCount]
    have hfin := entryInv_run id _ events hinv0
    obtain ⟨_, _, _, _, hsum⟩ := hfin
    refine ⟨by omega, by omega, by omega⟩

/-- CLAIM C2, witness for `pit_entry_at_most_one_callback`. -/
theorem pit_entry_at_most_one_callback_witness :
    dataCallCount 1 (runFaceTrace ⟨expressResultDemo.state, [1], []⟩
      [FaceEvent.receiveData [[97]]]).callLog ≤ 1 ∧
    timeoutCallCount 1 (runFaceTrace ⟨expressResultDemo.state, [1], []⟩
      [FaceEvent.receiveData [[97]]]).callLog ≤ 1 ∧
    ¬ (1 ≤ dataCallCount 1 (runFaceTrace ⟨expressResultDemo.state, [1], []⟩
        [FaceEvent.receiveData [[97]]]).callLog ∧
       1 ≤ timeoutCallCount 1 (runFaceTrace ⟨expressResultDemo.state, [1], []⟩
        [FaceEvent.receiveData [[97]]]).callLog) :=
  pit_entry_at_most_one_callback initialFace 1 smallInterestDemo
    expressResultDemo [FaceEvent.receiveData [[97]]]
    (by rfl) (by decide) (by decide)

/-- CLAIM C5, counterexample.  The claim says a deferred send whose id is
in the pending-removal set inserts nothing, schedules nothing and sends
nothing.  On a Face with id 1 marked for removal, the helper indeed skips
the PIT entry and the timer, but it still hands the encoding to
`transport.send`: the final send in `expressInterestHelper` is outside the
pending-removal branch. -/
theorem pending_removal_still_sends_cx :
    ∃ r, expressInterestHelper pendingRemovalFaceDemo 1 smallInterestDemo =
        Except.ok r ∧
      r.state.pendingInterestTable = [] ∧ r.timer = none ∧ r.sent ≠ [] := by
  refine ⟨_, rfl, ?_, ?_, ?_⟩ <;> decide

/-- CLAIM C5, amended.  If `removePendingInterest(id)` ran before the
deferred send, the send finds `id` in the pending-removal set, erases the
marker and inserts no PIT entry: no timer is scheduled and neither onData
nor onTimeout is ever invoked for that id in any later event sequence.
However, the encoded interest IS still passed to `transport.send` (unless
the name is under `/local/timeout`): the claim is wrong that nothing is
sent. -/
theorem pending_removal_suppresses_insertion (s : FaceState) (id : Nat)
    (interest : NdnInterest)
    (hsz : interest.encoding.length ≤ getMaxNdnPacketSize)
    (hmarker : id ∈ s.pitRemoveRequests)
    (hfresh : pitCount id s.pendingInterestTable = 0) :
    ∃ r, expressInterestHelper s id interest = Except.ok r ∧
      r.state.pendingInterestTable = s.pendingInterestTable ∧
      r.state.pitRemoveRequests = s.pitRemoveRequests.erase id ∧
      r.timer = none ∧
      r.sent = (if componentsMatch timeoutPrefixName interest.name then []
        else [interest.encoding]) ∧
      (∀ events : List FaceEvent,
        dataCallCount id (runFaceTrace ⟨r.state, [], []⟩ events).callLog = 0 ∧
        timeoutCallCount id
          (runFaceTrace ⟨r.state, [], []⟩ events).callLog = 0) := by
  have hsz2 : ¬ interest.encoding.length > getMaxNdnPacketSize := by omega
  refine ⟨_, expressInterestHelper_marker_present s id interest hsz2 hmarker,
    rfl, rfl, rfl, rfl, ?_⟩
  intro events
  have habs : entryAbsent id
      ⟨{ s with pitRemoveRequests := s.pitRemoveRequests.erase id }, [], []⟩ :=
    ⟨hfresh, by simp⟩
  obtain ⟨_, h2, h3⟩ := entryAbsent_run id _ events habs
  exact ⟨h2, h3⟩

/-- CLAIM C5, witness for `pending_removal_suppresses_insertion`. -/
theorem pending_removal_suppresses_insertion_witness :
    ∃ r, expressInterestHelper pendingRemovalFaceDemo 1 smallInterestDemo =
        Except.ok r ∧
      r.state.pendingInterestTable =
        pendingRemovalFaceDemo.pendingInterestTable ∧
      r.state.pitRemoveRequests =
        pendingRemovalFaceDemo.pitRemoveRequests.erase 1 ∧
      r.timer = none ∧
      r.sent = (if componentsMatch timeoutPrefixName smallInterestDemo.name
        then [] else [smallInterestDemo.encoding]) ∧
      (∀ events : List FaceEvent,
        dataCallCount 1 (runFaceTrace ⟨r.state, [], []⟩ events).callLog = 0 ∧
        timeoutCallCount 1
          (runFaceTrace ⟨r.state, [], []⟩ events).callLog = 0) :=
  pending_removal_suppresses_insertion pendingRemovalFaceDemo 1
    smallInterestDemo (by decide) (by decide) (by decide)

/-- CLAIM C6.  For an interest whose name is under the reserved
`/local/timeout` name (and whose encoding fits, with no pending-removal
marker), `expressInterestHelper` never calls `transport.send` yet still
inserts the PIT entry and schedules the lifetime timer (so the timeout
callback can fire); for an interest not under that name, the encoded
bytes are sent. -/
theorem timeout_prefix_no_send_but_timer (s : FaceState) (id : Nat)
    (interest : NdnInterest)
    (hsz : interest.encoding.length ≤ getMaxNdnPacketSize)
    (hmarker : id ∉ s.pitRemoveRequests) :
    ∃ r, expressInterestHelper s id interest = Except.ok r ∧
      (componentsMatch timeoutPrefixName interest.name = true →
        r.sent = [] ∧
        r.timer = some (id, match interest.lifetimeMilliseconds with
          | some l => if l = 0 then 4000 else l
          | none => 4000) ∧
        (⟨id, interest⟩ : PendingInterest) ∈ r.state.pendingInterestTable) ∧
      (componentsMatch timeoutPrefixName interest.name = false →
        r.sent = [interest.encoding]) := by
  have hsz2 : ¬ interest.encoding.length > getMaxNdnPacketSize := by omega
  refine ⟨_, expressInterestHelper_marker_absent s id interest hsz2 hmarker,
    ?_, ?_⟩
  · intro hm
    refine ⟨by simp [hm], rfl, ?_⟩
    simp
  · intro hm
    simp [hm]

/-- CLAIM C6, witness for `timeout_prefix_no_send_but_timer` at the
concrete interest `/local/timeout/x`. -/
theorem timeout_prefix_no_send_but_timer_witness :
    ∃ r, expressInterestHelper initialFace 1 timeoutInterestDemo =
        Except.ok r ∧
      (componentsMatch timeoutPrefixName timeoutInterestDemo.name = true →
        r.sent = [] ∧
        r.timer = some (1, match timeoutInterestDemo.lifetimeMilliseconds with
          | some l => if l = 0 then 4000 else l
          | none => 4000) ∧
        (⟨1, timeoutInterestDemo⟩ : PendingInterest) ∈
          r.state.pendingInterestTable) ∧
      (componentsMatch timeoutPrefixName timeoutInterestDemo.name = false →
        r.sent = [timeoutInterestDemo.encoding]) :=
  timeout_prefix_no_send_but_timer initialFace 1 timeoutInterestDemo
    (by decide) (by decide)

/-- CLAIM C1, counterexample.  The claim says the interest-filter entry is
inserted only on a StatusCode 200 response.  Registering `/a` with an
onInterest callback installs the filter entry at command-send time, and
the subsequent 403 response only invokes onRegisterFailed: the filter
table is still non-empty afterwards. -/
theorem registration_403_leaves_filter_installed_cx :
    ∃ s2 cmd, registerPrefixStep initialFace [[97]] true true 3 true =
        Except.ok (s2, 1, cmd) ∧
      registerResponseOnData s2 (some 403) = (s2, true) ∧
      s2.interestFilterTable ≠ [] := by
  refine ⟨_, _, rfl, rfl, by decide⟩

/-- CLAIM C1, amended.  For every register call whose forwarder reply
carries a StatusCode other than 200 (or fails to decode, `code = none`),
the failure callback onRegisterFailed(prefix) is invoked; however the
registered-prefix entry and (when an onInterest callback was supplied)
the interest-filter entry are installed when the signed command Interest
is sent, BEFORE any response, and a failure response leaves them
installed (the response handler changes no table). -/
theorem registration_failure_callback_and_eager_tables
    (s : FaceState) (prefixToRegister : NdnName) (hasOnInterest : Bool)
    (certSz : Nat) (isLocal : Bool) (code : Option Nat)
    (hid : (s.lastEntryId + 1) ∉ s.registeredPrefixRemoveRequests)
    (hcert : certSz ≠ 0)
    (hfail : code ≠ some 200) :
    ∃ s2 sent fid,
      registerPrefixStep s prefixToRegister hasOnInterest true certSz isLocal =
        Except.ok (s2, s.lastEntryId + 1, some sent) ∧
      (⟨s.lastEntryId + 1, prefixToRegister, fid⟩ : RegisteredPrefixEntry) ∈
        s2.registeredPrefixTable ∧
      (hasOnInterest = true →
        (⟨fid, prefixToRegister⟩ : InterestFilterEntry) ∈
          s2.interestFilterTable) ∧
      registerResponseOnData s2 code = (s2, true) := by
  have hc : s.registeredPrefixRemoveRequests.contains (s.lastEntryId + 1)
      = false := by simpa using hid
  have hresp : ∀ s2 : FaceState, registerResponseOnData s2 code = (s2, true) := by
    intro s2
    cases code with
    | none => rfl
    | some c =>
      have hcne : c ≠ 200 := fun hh => hfail (by rw [hh])
      simp [registerResponseOnData, hcne]
  cases hasOnInterest with
  | true =>
    have hrun : registerPrefixStep s prefixToRegister true true certSz isLocal =
        Except.ok
          ({ s with
              lastEntryId := s.lastEntryId + 2
              interestFilterTable := s.interestFilterTable ++
                [⟨s.lastEntryId + 2, prefixToRegister⟩]
              registeredPrefixTable := s.registeredPrefixTable ++
                [⟨s.lastEntryId + 1, prefixToRegister, s.lastEntryId + 2⟩] },
           s.lastEntryId + 1,
           some ((if isLocal then localhostRibRegister
               else localhopRibRegister) ++
             [controlParametersComponent prefixToRegister],
             if isLocal then 2000 else 4000)) := by
      simp only [registerPrefixStep, nfdRegisterPrefixStep, setInterestFilter,
        hc, Bool.false_eq_true, if_false]
      simp [hcert]
    exact ⟨_, _, s.lastEntryId + 2, hrun, by simp, fun _ => by simp, hresp _⟩
  | false =>
    have hrun : registerPrefixStep s prefixToRegister false true certSz isLocal =
        Except.ok
          ({ s with
              lastEntryId := s.lastEntryId + 1
              registeredPrefixTable := s.registeredPrefixTable ++
                [⟨s.lastEntryId + 1, prefixToRegister, 0⟩] },
           s.lastEntryId + 1,
           some ((if isLocal then localhostRibRegister
               else localhopRibRegister) ++
             [controlParametersComponent prefixToRegister],
             if isLocal then 2000 else 4000)) := by
      simp only [registerPrefixStep, nfdRegisterPrefixStep, hc,
        Bool.false_eq_true, if_false]
      simp [hcert]
    exact ⟨_, _, 0, hrun, by simp, fun hcontra => absurd hcontra (by simp),
      hresp _⟩

/-- CLAIM C1, witness for
`registration_failure_callback_and_eager_tables`. -/
theorem registration_failure_callback_and_eager_tables_witness :
    ∃ s2 sent fid,
      registerPrefixStep initialFace [[97]] true true 3 true =
        Except.ok (s2, initialFace.lastEntryId + 1, some sent) ∧
      (⟨initialFace.lastEntryId + 1, [[97]], fid⟩ : RegisteredPrefixEntry) ∈
        s2.registeredPrefixTable ∧
      (true = true →
        (⟨fid, [[97]]⟩ : InterestFilterEntry) ∈ s2.interestFilterTable) ∧
      registerResponseOnData s2 (some 403) = (s2, true) :=
  registration_failure_callback_and_eager_tables initialFace [[97]] true 3
    true (some 403) (by decide) (by decide) (by decide)

/-- With sufficient fuel, the send loop stops only once the flight reaches
the window. -/
theorem sendLoopPipe_ge (fuel a w n i : Nat) (hf : a + w ≤ n + fuel) :
    w ≤ (sendLoopPipe fuel a w n i).1 - a := by
  induction fuel generalizing n i with
  | zero =>
    simp only [sendLoopPipe]
    omega
  | succ fuel ih =>
    by_cases h : n - a < w
    · simp only [sendLoopPipe, if_pos h]
      exact ih (n + 1) (i + 1) (by omega)
    · simp only [sendLoopPipe, if_neg h]
      omega

/-- With a positive window and sufficient fuel, the send loop leaves
`snd_nxt` strictly beyond `snd_una`. -/
theorem sendLoopPipe_advances (fuel a w n i : Nat) (hw : 1 ≤ w)
    (hf : a + w ≤ n + fuel) : a < (sendLoopPipe fuel a w n i).1 := by
  have := sendLoopPipe_ge fuel a w n i hf
  omega

/-- `pipeInv` is preserved by every pipelined-fetcher event. -/
theorem pipeInv_step (c : ContentContext) (e : PipeEvent) (h : pipeInv c) :
    pipeInv (pipeStep c e) := by
  obtain ⟨h1, h2, h3, h4⟩ := h
  cases e with
  | timeout =>
    simp only [pipeStep, contentOnTimeout]
    split
    · refine ⟨?_, ?_, h3, h4⟩
      · dsimp only
        omega
      · dsimp only
        omega
    · exact ⟨h1, h2, h3, h4⟩
  | data contentIsNull seg f =>
    simp only [pipeStep, contentOnData]
    split
    · exact ⟨h1, h2, h3, h4⟩
    · split
      · split
        · exact ⟨h1, h2, h3, h4⟩
        · exact ⟨h1, h2, h3, h4⟩
      · split
        · refine ⟨h1, h2, h3, ?_⟩
          intro hco
          simp at hco
        · refine ⟨?_, ?_, ?_, ?_⟩
          · split
            · dsimp only
              omega
            · dsimp only
              exact h1
          · split
            · dsimp only
              next hlt => omega
            · dsimp only
              exact h2
          · split
            · exact h3
            · exact h3
          · split
            · dsimp only
              intro _
              exact sendLoopPipe_advances _ _ _ _ _ (Nat.le_add_left 1 _)
                (by omega)
            · dsimp only
              intro _
              exact sendLoopPipe_advances _ _ _ _ _ h1 (by omega)

/-- `pipeInv` holds at every state reachable from the initial context. -/
theorem pipeInv_run (events : List PipeEvent) : pipeInv (runPipe events) := by
  have h0 : pipeInv initContentContext :=
    ⟨by decide, by decide, by decide, fun _ => by decide⟩
  have hstep : ∀ (c : ContentContext) (es : List PipeEvent), pipeInv c →
      pipeInv (es.foldl pipeStep c) := by
    intro c es
    induction es generalizing c with
    | nil => exact fun h => h
    | cons e es ih => exact fun h => ih (pipeStep c e) (pipeInv_step c e h)
  exact hstep initContentContext events h0

/-- CLAIM C3, counterexample.  The claim asserts
`snd_nxt - snd_una ≤ snd_wnd` at every reachable state.  From the initial
state (`snd_una = 0`, `snd_nxt = 1`, `snd_wnd = 1`), after the in-order
arrival of segment 0 the fetcher grows the window to 2 and issues
segments 1 and 2 (`snd_nxt = 3`); a subsequent timeout collapses
`snd_wnd` to 1 without shrinking the flight, so `snd_nxt - snd_una = 2 >
1 = snd_wnd`. -/
theorem pipeline_flight_bound_fails_after_timeout_cx :
    ¬ ((runPipe [PipeEvent.data false 0 none, PipeEvent.timeout]).snd_nxt -
        (runPipe [PipeEvent.data false 0 none, PipeEvent.timeout]).snd_una ≤
       (runPipe [PipeEvent.data false 0 none, PipeEvent.timeout]).snd_wnd) := by
  decide

/-- CLAIM C3, amended.  At every reachable state of the pipelined fetcher
(starting from `snd_una = 0`, `snd_nxt = 1`, `snd_wnd = 1`):
`1 ≤ snd_wnd ≤ max_window = 32`, and while the fetch has not terminated
`snd_una < snd_nxt` (hence `snd_una ≤ snd_nxt`).  The flight bound
`snd_nxt - snd_una ≤ snd_wnd` of the original claim does not hold after a
timeout, which collapses the window to 1 with the flight outstanding. -/
theorem pipeline_window_invariant_amended (events : List PipeEvent) :
    1 ≤ (runPipe events).snd_wnd ∧
    (runPipe events).snd_wnd ≤ (runPipe events).max_window ∧
    (runPipe events).max_window = 32 ∧
    ((runPipe events).terminated = false →
      (runPipe events).snd_una < (runPipe events).snd_nxt) :=
  pipeInv_run events

/-- CLAIM C3, witness for `pipeline_window_invariant_amended`. -/
theorem pipeline_window_invariant_amended_witness :
    1 ≤ (runPipe []).snd_wnd ∧
    (runPipe []).snd_wnd ≤ (runPipe []).max_window ∧
    (runPipe []).max_window = 32 ∧
    ((runPipe []).terminated = false →
      (runPipe []).snd_una < (runPipe []).snd_nxt) :=
  pipeline_window_invariant_amended []

/-- An in-order arrival (segment equal to `snd_una`, non-null content)
never changes `ooo_count`: the source has no `ooo_count = 0` reset. -/
theorem contentOnData_inorder_keeps_ooo_count (c : ContentContext)
    (f : Option Nat) :
    (contentOnData c false c.snd_una f).ooo_count = c.ooo_count := by
  simp only [contentOnData]
  split
  · next h => exact absurd h (by simp)
  · split
    · next h => exact absurd rfl h
    · split
      · rfl
      · split
        · rfl
        · rfl

/-- CLAIM C8, counterexample.  In the spec reorder scenario the claim
asserts that the in-order arrival of segment 0 (with segments 1,2,3,4
marked) leaves `ooo_count` at 0.  In the code `ooo_count` is never reset:
the four out-of-order arrivals left it at 4 and the in-order arrival
keeps it there, so it is not 0. -/
theorem inorder_absorb_ooo_count_not_reset_cx :
    reorderMarkedDemo.snd_una = 0 ∧
    reorderMarkedDemo.ooo_table.getD 1 none = some 1 ∧
    reorderMarkedDemo.ooo_table.getD 2 none = some 2 ∧
    reorderMarkedDemo.ooo_table.getD 3 none = some 3 ∧
    reorderMarkedDemo.ooo_table.getD 4 none = some 4 ∧
    (pipeStep reorderMarkedDemo (PipeEvent.data false 0 none)).snd_una = 5 ∧
    (pipeStep reorderMarkedDemo (PipeEvent.data false 0 none)).ooo_count
      ≠ 0 := by
  refine ⟨?_, ?_, ?_, ?_, ?_, ?_, ?_⟩ <;> decide

/-- CLAIM C8, amended.  Processing an in-order arrival advances `snd_una`
past the received segment and then past every contiguously marked slot of
`ooo_table`, clearing each slot: with `snd_una = 0` and segments 1,2,3,4
marked, the arrival of segment 0 advances `snd_una` to 5 and clears the
slots.  However `ooo_count` is NOT reset to 0 - no code path ever resets
it - so it stays at 4 in this scenario. -/
theorem inorder_absorb_advances_una_keeps_ooo_count :
    (∀ (c : ContentContext) (f : Option Nat),
      (contentOnData c false c.snd_una f).ooo_count = c.ooo_count) ∧
    (pipeStep reorderMarkedDemo (PipeEvent.data false 0 none)).snd_una = 5 ∧
    (pipeStep reorderMarkedDemo (PipeEvent.data false 0 none)).ooo_count
      = 4 ∧
    (∀ k, 1 ≤ k → k ≤ 4 →
      (pipeStep reorderMarkedDemo
        (PipeEvent.data false 0 none)).ooo_table.getD k none = none) := by
  refine ⟨contentOnData_inorder_keeps_ooo_count, by decide, by decide, ?_⟩
  intro k hk1 hk2
  interval_cases k <;> decide

/-- CLAIM C8, witness for `inorder_absorb_advances_una_keeps_ooo_count`. -/
theorem inorder_absorb_advances_una_keeps_ooo_count_witness :
    (contentOnData initContentContext false initContentContext.snd_una
      none).ooo_count = initContentContext.ooo_count ∧
    (pipeStep reorderMarkedDemo
      (PipeEvent.data false 0 none)).ooo_table.getD 1 none = none :=
  ⟨inorder_absorb_advances_una_keeps_ooo_count.1 initContentContext none,
   inorder_absorb_advances_una_keeps_ooo_count.2.2.2 1 (by decide)
     (by decide)⟩

/-- Inversion of `sfOnData` ending in onComplete: the packet verified, its
last name component decoded to exactly the expected segment
(`contentParts.length`), its FinalBlockId decoded to the same number, and
the blob is the concatenation of the parts with the new content
appended. -/
theorem sfOnData_complete (contentParts : List (List Nat)) (p : SFPacket)
    (blobX : List Nat) (h : sfOnData contentParts p = SFStep.complete blobX) :
    segOf p = some contentParts.length ∧
    blobX = (contentParts ++ [p.content]).flatten ∧
    toSegment p.finalBlockIdValue = some contentParts.length := by
  unfold sfOnData at h
  by_cases hv : p.verified = false
  · rw [if_pos hv] at h
    simp at h
  · rw [if_neg hv] at h
    by_cases he : endsWithSegmentNumber p.name = false
    · rw [if_pos he] at h
      simp at h
    · rw [if_neg he] at h
      cases hseg : toSegment (p.name.getLastD []) with
      | none =>
        rw [hseg] at h
        dsimp only at h
        simp at h
      | some cur =>
        rw [hseg] at h
        dsimp only at h
        by_cases hcur : cur ≠ contentParts.length
        · rw [if_pos hcur] at h
          simp at h
        · rw [if_neg hcur] at h
          push_neg at hcur
          by_cases hfb : p.finalBlockIdValue.length > 0
          · rw [if_pos hfb] at h
            cases hf : toSegment p.finalBlockIdValue with
            | none =>
              rw [hf] at h
              dsimp only at h
              simp at h
            | some fseg =>
              rw [hf] at h
              dsimp only at h
              by_cases hcf : cur = fseg
              · rw [if_pos hcf] at h
                injection h with hblob
                refine ⟨?_, hblob.symm, ?_⟩
                · rw [segOf, hseg, hcur]
                · have hfc : fseg = contentParts.length := by omega
                  exact congrArg some hfc
              · rw [if_neg hcf] at h
                simp at h
          · rw [if_neg hfb] at h
            simp at h

/-- Inversion of `sfOnData` continuing with another Interest: either the
arrival was discarded (mismatched segment; `contentParts` unchanged) or it
was the expected segment and its content was appended. -/
theorem sfOnData_toNext (contentParts : List (List Nat)) (p : SFPacket)
    (newParts : List (List Nat)) (req : Nat)
    (h : sfOnData contentParts p = SFStep.toNext newParts req) :
    newParts = contentParts ∨
    (segOf p = some contentParts.length ∧
      newParts = contentParts ++ [p.content]) := by
  unfold sfOnData at h
  by_cases hv : p.verified = false
  · rw [if_pos hv] at h
    simp at h
  · rw [if_neg hv] at h
    by_cases he : endsWithSegmentNumber p.name = false
    · rw [if_pos he] at h
      simp at h
    · rw [if_neg he] at h
      cases hseg : toSegment (p.name.getLastD []) with
      | none =>
        rw [hseg] at h
        dsimp only at h
        simp at h
      | some cur =>
        rw [hseg] at h
        dsimp only at h
        by_cases hcur : cur ≠ contentParts.length
        · rw [if_pos hcur] at h
          injection h with h1 h2
          exact Or.inl h1.symm
        · rw [if_neg hcur] at h
          push_neg at hcur
          refine Or.inr ⟨by rw [segOf, hseg, hcur], ?_⟩
          by_cases hfb : p.finalBlockIdValue.length > 0
          · rw [if_pos hfb] at h
            cases hf : toSegment p.finalBlockIdValue with
            | none =>
              rw [hf] at h
              dsimp only at h
              simp at h
            | some fseg =>
              rw [hf] at h
              dsimp only at h
              by_cases hcf : cur = fseg
              · rw [if_pos hcf] at h
                simp at h
              · rw [if_neg hcf] at h
                injection h with h1 h2
                exact h1.symm
          · rw [if_neg hfb] at h
            injection h with h1 h2
            exact h1.symm

/-- Generalized invariant for `sfRun`: a completed run picks a
subsequence of the incoming packets whose segments continue
`contentParts` exactly in order, and the blob is the concatenation. -/
theorem sfRun_spec (ps : List SFPacket) :
    ∀ (contentParts : List (List Nat)) (blob : List Nat),
    sfRun contentParts ps = some blob →
    ∃ picks : List SFPacket, picks.Sublist ps ∧ picks ≠ [] ∧
      (∀ k (hk : k < picks.length),
        segOf (picks.get ⟨k, hk⟩) = some (contentParts.length + k)) ∧
      blob = contentParts.flatten ++
        (picks.map (fun q => q.content)).flatten ∧
      ∃ plast fseg, picks.getLast? = some plast ∧
        toSegment plast.finalBlockIdValue = some fseg ∧
        contentParts.length + picks.length = fseg + 1 := by
  induction ps with
  | nil =>
    intro parts blob h
    simp [sfRun] at h
  | cons p ps ih =>
    intro parts blob h
    rw [sfRun] at h
    cases hstep : sfOnData parts p with
    | fetchError =>
      rw [hstep] at h
      dsimp only at h
      simp at h
    | complete blobX =>
      rw [hstep] at h
      dsimp only at h
      injection h with hb
      obtain ⟨hseg, hblob, hfin⟩ := sfOnData_complete parts p blobX hstep
      refine ⟨[p], (List.nil_sublist ps).cons₂ p, by simp, ?_, ?_, p,
        parts.length, rfl, hfin, by simp⟩
      · intro k hk
        have hk0 : k = 0 := by
          simp at hk
          exact hk
        subst hk0
        simpa using hseg
      · rw [← hb, hblob]
        simp
    | toNext newParts req =>
      rw [hstep] at h
      dsimp only at h
      obtain ⟨picks, hsub, hne, hidx, hblob, plast, fseg, hlast, hfin, hlen⟩ :=
        ih newParts blob h
      rcases sfOnData_toNext parts p newParts req hstep with hsame |
        ⟨hseg, happ⟩
      · subst hsame
        exact ⟨picks, hsub.cons p, hne, hidx, hblob, plast, fseg, hlast,
          hfin, hlen⟩
      · subst happ
        refine ⟨p :: picks, hsub.cons₂ p, by simp, ?_, ?_, plast, fseg, ?_,
          hfin, ?_⟩
        · intro k hk
          cases k with
          | zero => simpa using hseg
          | succ k =>
            have hk2 : k < picks.length := by simpa using hk
            have hthis := hidx k hk2
            have harith : parts.length + (k + 1) =
                (parts ++ [p.content]).length + k := by
              simp
              omega
            rw [harith]
            simpa using hthis
        · rw [hblob]
          simp
        · cases picks with
          | nil => exact absurd rfl hne
          | cons q qs =>
            rw [List.getLast?_cons_cons]
            exact hlast
        · simp at hlen ⊢
          omega

/-- CLAIM C4.  Every segment-fetcher run that ends by calling onComplete
delivers the byte-concatenation of the contents of a subsequence of the
received Data packets whose segment numbers are exactly 0, 1, ...,
finalSegment in strictly increasing order with no gaps and no
duplicates - position k of the concatenation is the content of a packet
with segment number k - and the last of them carries a FinalBlockId
decoding to finalSegment = number of parts minus 1.  A mismatched arrival
is discarded (it contributes nothing to the blob) and the expected
segment is re-requested. -/
theorem segment_fetcher_onComplete_ordered_concat (ps : List SFPacket)
    (blob : List Nat) (h : sfRun [] ps = some blob) :
    ∃ picks : List SFPacket, picks.Sublist ps ∧ picks ≠ [] ∧
      (∀ k (hk : k < picks.length), segOf (picks.get ⟨k, hk⟩) = some k) ∧
      blob = (picks.map (fun q => q.content)).flatten ∧
      ∃ plast fseg, picks.getLast? = some plast ∧
        toSegment plast.finalBlockIdValue = some fseg ∧
        picks.length = fseg + 1 := by
  obtain ⟨picks, h1, h2, h3, h4, plast, fseg, h5, h6, h7⟩ :=
    sfRun_spec ps [] blob h
  refine ⟨picks, h1, h2, ?_, by simpa using h4, plast, fseg, h5, h6,
    by simpa using h7⟩
  intro k hk
  simpa using h3 k hk

/-- CLAIM C4, witness for `segment_fetcher_onComplete_ordered_concat` on
the spec segment-fetch scenario (segments 0,1,2 with contents [1], [2],
[3] and FinalBlockId segment 2): the delivered blob is [1, 2, 3]. -/
theorem segment_fetcher_onComplete_ordered_concat_witness :
    sfRun [] sfScenarioDemo = some [1, 2, 3] ∧
    ∃ picks : List SFPacket, picks.Sublist sfScenarioDemo ∧ picks ≠ [] ∧
      (∀ k (hk : k < picks.length), segOf (picks.get ⟨k, hk⟩) = some k) ∧
      [1, 2, 3] = (picks.map (fun q => q.content)).flatten ∧
      ∃ plast fseg, picks.getLast? = some plast ∧
        toSegment plast.finalBlockIdValue = some fseg ∧
        picks.length = fseg + 1 :=
  ⟨by decide,
   segment_fetcher_onComplete_ordered_concat sfScenarioDemo [1, 2, 3]
     (by decide)⟩
